import Mathlib

/-!
Verification of the memory-hierarchy simulator (cache, TLB, Sv39 page walker,
web front end) against its natural-language specification.  Each Python
component is shallowly embedded as executable Lean definitions; machine
integers are `Nat` (Python integers are unbounded and non-negative in every
reachable state of these components), fallible operations return `Option`.
-/

/-! ### Little-endian byte strings

`natToBytesLE n v` mirrors Python's `v.to_bytes(n, byteorder='little')`
(Python raises `OverflowError` when `v ≥ 256^n`; theorems using it carry the
corresponding bound).  `natFromBytesLE` mirrors `int.from_bytes(-, 'little')`.
-/

def natToBytesLE : Nat → Nat → List Nat
  | 0, _ => []
  | n + 1, v => v % 256 :: natToBytesLE n (v / 256)

def natFromBytesLE : List Nat → Nat
  | [] => 0
  | b :: bs => b + 256 * natFromBytesLE bs

/-! ### First-index searches

The Python loops `for i in range(n): if p(xs[i]): return i` are embedded as
`firstIdxSat`, and the first-minimum scan shared by `Cache._find_victim` and
`TLB._find_victim` (initialise with index 0, strict `<` keeps the earliest
minimum) as `firstMinIdx` / `minLruGo`.
-/

def firstIdxSat (p : α → Bool) : List α → Option Nat
  | [] => none
  | a :: as => if p a then some 0 else (firstIdxSat p as).map (· + 1)

def minLruGo : List Nat → Nat → Nat → Nat → Nat
  | [], best, _, _ => best
  | v :: vs, best, bmin, i =>
    if v < bmin then minLruGo vs i v (i + 1) else minLruGo vs best bmin (i + 1)

def firstMinIdx : List Nat → Nat
  | [] => 0
  | v :: vs => minLruGo vs 0 v 1

/-! ### TLB simulator (`src/03_TLB/tlb_simulator.py`)

`PageSize`, `TLBEntry` and `TLB` mirror the Python classes.  The simulated
page table is the dictionary `page_table : (vpn, page_size) ↦ ppn`; note that
`install_mapping` receives permission arguments but stores only the PPN
("We store permissions in TLB entries, not page table (simplified)").
Statistics counters `hits`/`misses` and the global LRU counter are carried in
the state; `verbose` printing has no effect on state and is omitted.
-/

inductive PageSize where
  | kb4
  | mb2
  | gb1
deriving DecidableEq

def PageSize.offsetBits : PageSize → Nat
  | .kb4 => 12
  | .mb2 => 21
  | .gb1 => 30

structure TLBEntry where
  valid : Bool
  vpn : Nat
  ppn : Nat
  page_size : PageSize
  readable : Bool
  writable : Bool
  executable : Bool
  dirty : Bool
  accessed : Bool
  global_page : Bool
  lru_counter : Nat
deriving DecidableEq

/-- Default-constructed `TLBEntry()` of the Python dataclass. -/
def TLBEntry.init : TLBEntry :=
  ⟨false, 0, 0, .kb4, true, true, false, false, false, false, 0⟩

structure TLB where
  entries : List TLBEntry
  hits : Nat
  misses : Nat
  global_lru_counter : Nat
  page_table : List ((Nat × PageSize) × Nat)
deriving DecidableEq

/-- `TLB.__init__`: `num_entries` invalid entries, zeroed statistics, empty
simulated page table. -/
def TLB.new (num_entries : Nat) : TLB :=
  ⟨List.replicate num_entries TLBEntry.init, 0, 0, 0, []⟩

/-- `TLB._extract_vpn`: `va >> page_size.offset_bits`. -/
def extractVpn (va : Nat) (ps : PageSize) : Nat := va >>> ps.offsetBits

/-- `TLB._extract_offset`: `va & ((1 << offset_bits) - 1)`. -/
def extractOffset (va : Nat) (ps : PageSize) : Nat :=
  va &&& ((1 <<< ps.offsetBits) - 1)

/-- `TLB._construct_pa`: `(ppn << offset_bits) | offset`. -/
def constructPa (ppn offset : Nat) (ps : PageSize) : Nat :=
  (ppn <<< ps.offsetBits) ||| offset

/-- `TLB._find_entry`: index of the first valid entry matching
`(vpn, page_size)`. -/
def TLB.findEntry (t : TLB) (vpn : Nat) (ps : PageSize) : Option Nat :=
  firstIdxSat (fun e => e.valid && e.vpn == vpn && decide (e.page_size = ps)) t.entries

/-- `TLB._find_victim`: first invalid entry, else the first entry attaining
the minimum `lru_counter`. -/
def TLB.findVictim (t : TLB) : Nat :=
  match firstIdxSat (fun e => !e.valid) t.entries with
  | some i => i
  | none => firstMinIdx (t.entries.map (·.lru_counter))

/-- Lookup in the simulated page-table dictionary (`dict.get`). -/
def ptLookup : List ((Nat × PageSize) × Nat) → Nat → PageSize → Option Nat
  | [], _, _ => none
  | ((k, s), p) :: rest, vpn, ps =>
    if k == vpn && decide (s = ps) then some p else ptLookup rest vpn ps

/-- Assignment `dict[key] = value` (the new binding shadows any old one). -/
def ptInsert (pt : List ((Nat × PageSize) × Nat)) (vpn : Nat) (ps : PageSize)
    (ppn : Nat) : List ((Nat × PageSize) × Nat) :=
  ((vpn, ps), ppn) :: pt.filter (fun e => !(e.1.1 == vpn && decide (e.1.2 = ps)))

/-- `TLB._page_walk`: dictionary lookup of `(vpn, page_size)`. -/
def TLB.pageWalk (t : TLB) (vpn : Nat) (ps : PageSize) : Option Nat :=
  ptLookup t.page_table vpn ps

/-- `TLB.install_mapping`.  The permission arguments are accepted but
discarded: only `page_table[(vpn, page_size)] = ppn` is stored, per the
source comment "We store permissions in TLB entries, not page table
(simplified)". -/
def TLB.installMapping (t : TLB) (va pa : Nat) (ps : PageSize)
    (_readable _writable _executable : Bool) : TLB :=
  { t with page_table := ptInsert t.page_table (extractVpn va ps) ps (extractVpn pa ps) }

/-- `TLB.translate`.  Returns the optional physical address and the updated
TLB state.  On a hit the permission check happens after `hits` is bumped and
before any LRU/flag update; on a miss a failed walk leaves only `misses`
changed, and a successful walk overwrites the victim entry with hard-coded
permissions `readable=True, writable=True, executable=False`. -/
def TLB.translate (t : TLB) (va : Nat) (ps : PageSize) (is_write : Bool) :
    Option Nat × TLB :=
  let vpn := extractVpn va ps
  let offset := extractOffset va ps
  match t.findEntry vpn ps with
  | some idx =>
    let e := t.entries.getD idx TLBEntry.init
    if is_write && !e.writable then
      (none, { t with hits := t.hits + 1 })
    else
      let pa := constructPa e.ppn offset ps
      let glc := t.global_lru_counter + 1
      let e' := { e with
        lru_counter := glc
        accessed := true
        dirty := e.dirty || is_write }
      (some pa, { t with
        hits := t.hits + 1
        global_lru_counter := glc
        entries := t.entries.set idx e' })
  | none =>
    match t.pageWalk vpn ps with
    | none => (none, { t with misses := t.misses + 1 })
    | some ppn =>
      let victim := t.findVictim
      let glc := t.global_lru_counter + 1
      let newEntry : TLBEntry :=
        ⟨true, vpn, ppn, ps, true, true, false, is_write, true, false, glc⟩
      (some (constructPa ppn offset ps),
       { t with
         misses := t.misses + 1
         global_lru_counter := glc
         entries := t.entries.set victim newEntry })

/-! ### Set-associative cache (`src/01_Cache_Basics/cache_simulator.py`)

`Cache.__init__` validates the geometry and derives the bit-field widths;
it is embedded as `cacheInit`, returning `none` where Python raises
`ValueError`.  Sizes are `Nat` (negative Python arguments are rejected by the
`<= 0` check, so the accepted parameter sets coincide); `address_bits` is
never validated and `tag_bits = address_bits - index_bits - offset_bits` can
go negative in Python, so both are `Int`.
-/

inductive AccessType where
  | read
  | write
deriving DecidableEq

structure CacheLine where
  valid : Bool
  dirty : Bool
  tag : Nat
  lru_counter : Nat
deriving DecidableEq

/-- Default-constructed `CacheLine()` of the Python dataclass. -/
def CacheLine.init : CacheLine := ⟨false, false, 0, 0⟩

structure CacheGeom where
  size : Nat
  block_size : Nat
  associativity : Nat
  address_bits : Int
  num_blocks : Nat
  num_sets : Nat
  offset_bits : Nat
  index_bits : Nat
  tag_bits : Int
deriving DecidableEq

/-- `Cache._is_power_of_2`: `n > 0 and (n & (n - 1)) == 0`. -/
def isPow2 (n : Nat) : Bool := decide (0 < n) && (n &&& (n - 1) == 0)

/-- Fuel-driven floor base-2 logarithm, embedding `int(math.log2(x))` (exact
on the powers of two the constructor applies it to). -/
def log2Aux : Nat → Nat → Nat
  | 0, _ => 0
  | fuel + 1, n => if 2 ≤ n then log2Aux fuel (n / 2) + 1 else 0

def intLog2 (n : Nat) : Nat := log2Aux n n

/-- The validation and geometry computation of `Cache.__init__`.  Note that
`num_sets = (size // block_size) // associativity` uses floor division, and
only `num_sets` is checked to be a power of two — divisibility of the block
count by the associativity is never checked. -/
def cacheInit (size block_size associativity : Nat) (address_bits : Int) :
    Option CacheGeom :=
  if size = 0 ∨ block_size = 0 ∨ associativity = 0 then none
  else if size % block_size ≠ 0 then none
  else if ¬ isPow2 block_size then none
  else
    let num_blocks := size / block_size
    let num_sets := num_blocks / associativity
    if ¬ isPow2 num_sets then none
    else
      let offset_bits := intLog2 block_size
      let index_bits := intLog2 num_sets
      some ⟨size, block_size, associativity, address_bits, num_blocks,
        num_sets, offset_bits, index_bits,
        address_bits - (index_bits : Int) - (offset_bits : Int)⟩

structure AddrParts where
  tag : Nat
  index : Nat
  offset : Nat
deriving DecidableEq

/-- `Cache._decompose_address`.  The tag mask `(1 << tag_bits) - 1` is only
meaningful for `tag_bits ≥ 0` (Python raises on a negative shift), hence
`Int.toNat`. -/
def decomposeAddress (g : CacheGeom) (address : Nat) : AddrParts :=
  { offset := address &&& ((1 <<< g.offset_bits) - 1)
    index := (address >>> g.offset_bits) &&& ((1 <<< g.index_bits) - 1)
    tag := (address >>> (g.offset_bits + g.index_bits)) &&&
      ((1 <<< g.tag_bits.toNat) - 1) }

/-- `Cache._find_line`: first valid way whose tag matches. -/
def findLine (s : List CacheLine) (tag : Nat) : Option Nat :=
  firstIdxSat (fun l => l.valid && l.tag == tag) s

/-- `Cache._find_victim`: first invalid way, else the first way attaining the
minimum `lru_counter`. -/
def cacheFindVictim (s : List CacheLine) : Nat :=
  match firstIdxSat (fun l => !l.valid) s with
  | some i => i
  | none => firstMinIdx (s.map (·.lru_counter))

structure CacheState where
  geom : CacheGeom
  sets : List (List CacheLine)
  read_hits : Nat
  read_misses : Nat
  write_hits : Nat
  write_misses : Nat
  evictions : Nat
  dirty_evictions : Nat
  global_lru_counter : Nat
deriving DecidableEq

/-- The mutable state built by `Cache.__init__`: all lines invalid, all
counters zero. -/
def CacheState.init (g : CacheGeom) : CacheState :=
  ⟨g, List.replicate g.num_sets (List.replicate g.associativity CacheLine.init),
   0, 0, 0, 0, 0, 0, 0⟩

/-- `Cache.access`.  Returns `(hit, new state)`.  The sequential mutations of
the accessed line (`dirty`, then `_update_lru`) are expressed as a single
`List.set` at its way.  Faithfully to the source, `dirty_evictions` is only
incremented inside the `if verbose:` block, while `evictions` is counted
unconditionally. -/
def CacheState.access (c : CacheState) (address : Nat) (ty : AccessType)
    (verbose : Bool) : Bool × CacheState :=
  let d := decomposeAddress c.geom address
  let s := c.sets.getD d.index []
  match findLine s d.tag with
  | some way =>
    let line := s.getD way CacheLine.init
    let glc := c.global_lru_counter + 1
    let line' := { line with
      dirty := if ty = .write then true else line.dirty
      lru_counter := glc }
    (true, { c with
      sets := c.sets.set d.index (s.set way line')
      global_lru_counter := glc
      read_hits := if ty = .read then c.read_hits + 1 else c.read_hits
      write_hits := if ty = .write then c.write_hits + 1 else c.write_hits })
  | none =>
    let victim := cacheFindVictim s
    let old := s.getD victim CacheLine.init
    let glc := c.global_lru_counter + 1
    let newLine : CacheLine := ⟨true, ty = .write, d.tag, glc⟩
    (false, { c with
      sets := c.sets.set d.index (s.set victim newLine)
      global_lru_counter := glc
      read_misses := if ty = .read then c.read_misses + 1 else c.read_misses
      write_misses := if ty = .write then c.write_misses + 1 else c.write_misses
      evictions := if old.valid then c.evictions + 1 else c.evictions
      dirty_evictions := if verbose && old.valid && old.dirty then
        c.dirty_evictions + 1 else c.dirty_evictions })

/-- Replay a list of `(address, type)` accesses (non-verbose, as the web app
and the batch demos drive the cache). -/
def CacheState.run (c : CacheState) (trace : List (Nat × AccessType)) : CacheState :=
  trace.foldl (fun st p => (st.access p.1 p.2 false).2) c

/-! ### Sv39 page walker (`src/04_Page_Walk/page_walk_sim.py`)

Simulated physical memory is a sparse map from page-aligned addresses to
4096-byte tables; a table is modelled as `Nat → Nat` (byte at offset — every
access the walker performs lies inside the 4096-byte range).  A lookup of an
unallocated table raises `KeyError` in Python; it is modelled by `Option`
(`none` from `readPte`/`writePte`, surfacing as `WalkResult.keyError`).
`_allocate_page_table` draws `random.randint(0x10000, 0xFFFFFF) & ~0xFFF`;
the drawn values are passed in explicitly so that every outcome of the
allocator can be quantified over.  The `page_walks`/`page_faults` counters
affect no translation result and are omitted.  `translate` additionally
returns the list of `(table_pa, index)` arguments of the `_read_pte` calls it
performs, in order, so that read locality can be stated.
-/

structure SvPTE where
  valid : Bool
  ppn : Nat
  readable : Bool
  writable : Bool
  executable : Bool
  user : Bool
  global_page : Bool
  accessed : Bool
  dirty : Bool
  is_leaf : Bool
deriving DecidableEq

/-- Default-constructed `PageTableEntry()` of the Python dataclass. -/
def SvPTE.init : SvPTE :=
  ⟨false, 0, false, false, false, false, false, false, false, false⟩

/-- The flag byte built by `_write_pte` with successive `flags |= bit`. -/
def pteFlags (p : SvPTE) : Nat :=
  ((((((((0 : Nat)
    ||| (if p.valid then 0x01 else 0))
    ||| (if p.readable then 0x02 else 0))
    ||| (if p.writable then 0x04 else 0))
    ||| (if p.executable then 0x08 else 0))
    ||| (if p.user then 0x10 else 0))
    ||| (if p.global_page then 0x20 else 0))
    ||| (if p.accessed then 0x40 else 0))
    ||| (if p.dirty then 0x80 else 0)

/-- `pte_value = (pte.ppn << 10) | flags` from `_write_pte`. -/
def pteValue (p : SvPTE) : Nat := (p.ppn <<< 10) ||| pteFlags p

/-- The field decoding of `_read_pte`, with `is_leaf` derived as
`readable or writable or executable`. -/
def decodePteValue (v : Nat) : SvPTE :=
  let readable := (v &&& 0x02) != 0
  let writable := (v &&& 0x04) != 0
  let executable := (v &&& 0x08) != 0
  { valid := (v &&& 0x01) != 0
    ppn := v >>> 10
    readable := readable
    writable := writable
    executable := executable
    user := (v &&& 0x10) != 0
    global_page := (v &&& 0x20) != 0
    accessed := (v &&& 0x40) != 0
    dirty := (v &&& 0x80) != 0
    is_leaf := readable || writable || executable }

/-- A 4096-byte table: byte at each offset (`bytearray(4096)` starts zeroed). -/
def PtTable := Nat → Nat

def zeroTable : PtTable := fun _ => 0

/-- Overwrite `n` bytes at `off` with the little-endian encoding of `v`
(the slice assignment in `_write_pte`). -/
def writeBytesLE (t : PtTable) (off n v : Nat) : PtTable :=
  fun i => if off ≤ i ∧ i < off + n then (natToBytesLE n v).getD (i - off) 0 else t i

/-- Read `n` bytes at `off` as a little-endian integer (the slice read in
`_read_pte`). -/
def readBytesLE (t : PtTable) (off n : Nat) : Nat :=
  natFromBytesLE ((List.range n).map fun j => t (off + j))

/-- Sparse simulated physical memory: page-aligned address ↦ table. -/
def PtMem := Nat → Option PtTable

def memStore (m : PtMem) (k : Nat) (t : PtTable) : PtMem :=
  fun a => if a = k then some t else m a

/-- `_write_pte` (`none` where Python raises `KeyError`). -/
def writePte (m : PtMem) (table_pa index : Nat) (p : SvPTE) : Option PtMem :=
  (m table_pa).map fun t =>
    memStore m table_pa (writeBytesLE t (index * 8) 8 (pteValue p))

/-- `_read_pte` (`none` where Python raises `KeyError`). -/
def readPte (m : PtMem) (table_pa index : Nat) : Option SvPTE :=
  (m table_pa).map fun t => decodePteValue (readBytesLE t (index * 8) 8)

/-- `pa & ~0xFFF` of `_allocate_page_table`. -/
def alignPage (a : Nat) : Nat := a / 4096 * 4096

/-- `_allocate_page_table`, with the random draw `a` passed in: page-align
it, install a zeroed table there (clobbering any table already at that
address, exactly as `self.memory[pa] = bytearray(4096)` does). -/
def allocPageTable (m : PtMem) (a : Nat) : PtMem × Nat :=
  let pa := alignPage a
  (memStore m pa zeroTable, pa)

/-- `_decompose_va` fields. -/
def vpn2 (va : Nat) : Nat := (va >>> 30) &&& 0x1FF
def vpn1 (va : Nat) : Nat := (va >>> 21) &&& 0x1FF
def vpn0 (va : Nat) : Nat := (va >>> 12) &&& 0x1FF
def vaOffset (va : Nat) : Nat := va &&& 0xFFF

structure Sv39Walker where
  memory : PtMem
  satp : Nat

/-- `RISCV_Sv39_PageWalker.__init__`, with the root-table draw `a0` passed
in: allocate the root and record it as `satp`. -/
def Sv39Walker.new (a0 : Nat) : Sv39Walker :=
  let (m, pa) := allocPageTable (fun _ => none) a0
  ⟨m, pa⟩

/-- `map_page`, with the (up to two) allocator draws `a1`, `a2` passed in;
`a1` is consumed only if the level-2 PTE is invalid, `a2` only if the
level-1 PTE is invalid.  `none` where Python raises `KeyError`. -/
def Sv39Walker.mapPage (w : Sv39Walker) (a1 a2 : Nat) (va pa : Nat)
    (readable writable executable user : Bool) : Option Sv39Walker :=
  match readPte w.memory w.satp (vpn2 va) with
  | none => none
  | some pte_l2 =>
    let step2 : Option (PtMem × Nat) :=
      if pte_l2.valid then
        some (w.memory, pte_l2.ppn <<< 12)
      else
        let (m1, l1_alloc) := allocPageTable w.memory a1
        let pte : SvPTE := { SvPTE.init with valid := true, ppn := l1_alloc >>> 12 }
        match writePte m1 w.satp (vpn2 va) pte with
        | none => none
        | some m2 => some (m2, pte.ppn <<< 12)
    match step2 with
    | none => none
    | some (mA, l1_pa) =>
      match readPte mA l1_pa (vpn1 va) with
      | none => none
      | some pte_l1 =>
        let step1 : Option (PtMem × Nat) :=
          if pte_l1.valid then
            some (mA, pte_l1.ppn <<< 12)
          else
            let (m3, l0_alloc) := allocPageTable mA a2
            let pte : SvPTE := { SvPTE.init with valid := true, ppn := l0_alloc >>> 12 }
            match writePte m3 l1_pa (vpn1 va) pte with
            | none => none
            | some m4 => some (m4, pte.ppn <<< 12)
        match step1 with
        | none => none
        | some (mB, l0_pa) =>
          let pte_l0 : SvPTE := { SvPTE.init with
            valid := true
            ppn := pa >>> 12
            readable := readable
            writable := writable
            executable := executable
            user := user
            is_leaf := true }
          match writePte mB l0_pa (vpn0 va) pte_l0 with
          | none => none
          | some m5 => some { w with memory := m5 }

inductive WalkResult where
  | keyError
  | fault
  | ok (pa : Nat)
deriving DecidableEq

/-- `RISCV_Sv39_PageWalker.translate`.  First component: `.fault` where the
source returns `None` (invalid PTE at any level, or a write to a non-writable
level-0 leaf), `.ok pa` on success, `.keyError` where the source would raise.
Second component: the `(table_pa, index)` of each `_read_pte` performed, in
order (the crashing one included). -/
def Sv39Walker.translate (w : Sv39Walker) (va : Nat) (is_write : Bool) :
    WalkResult × List (Nat × Nat) :=
  let r2 : List (Nat × Nat) := [(w.satp, vpn2 va)]
  match readPte w.memory w.satp (vpn2 va) with
  | none => (.keyError, r2)
  | some pte_l2 =>
    if ¬ pte_l2.valid then (.fault, r2)
    else if pte_l2.is_leaf then
      (.ok ((pte_l2.ppn <<< 30) ||| (va &&& 0x3FFFFFFF)), r2)
    else
      let l1_pa := pte_l2.ppn <<< 12
      let r1 := r2 ++ [(l1_pa, vpn1 va)]
      match readPte w.memory l1_pa (vpn1 va) with
      | none => (.keyError, r1)
      | some pte_l1 =>
        if ¬ pte_l1.valid then (.fault, r1)
        else if pte_l1.is_leaf then
          (.ok ((pte_l1.ppn <<< 21) ||| (va &&& 0x1FFFFF)), r1)
        else
          let l0_pa := pte_l1.ppn <<< 12
          let r0 := r1 ++ [(l0_pa, vpn0 va)]
          match readPte w.memory l0_pa (vpn0 va) with
          | none => (.keyError, r0)
          | some pte_l0 =>
            if ¬ pte_l0.valid then (.fault, r0)
            else if is_write && !pte_l0.writable then (.fault, r0)
            else (.ok ((pte_l0.ppn <<< 12) ||| vaOffset va), r0)

/-! ### Web front end (`src/06_WebApp/app.py`, route `/api/tlb/translate`)

The handler maps the `page_size` request string through
`page_size_map.get(page_size_str, (PageSize.KB_4, 12))` — an unrecognized
string silently falls back to the 4 KiB default — builds a fresh TLB,
installs a default mapping for the page (`pa_page = (va_page | 0x10000000)`
re-aligned), and translates.  `va & ~mask` is `va - va % 2^bits`.
-/

def pageSizeOfString (s : String) : Option (PageSize × Nat) :=
  if s = "4KB" then some (.kb4, 12)
  else if s = "2MB" then some (.mb2, 21)
  else if s = "1GB" then some (.gb1, 30)
  else none

def tlbTranslateHandler (num_entries va : Nat) (page_size_str : String) :
    Option Nat × TLB :=
  let psb := (pageSizeOfString page_size_str).getD (.kb4, 12)
  let ps := psb.1
  let offset_bits := psb.2
  let tlb := TLB.new num_entries
  let va_page := va - va % (1 <<< offset_bits)
  let pa_page := (va_page ||| 0x10000000) - (va_page ||| 0x10000000) % (1 <<< offset_bits)
  let tlb := tlb.installMapping va_page pa_page ps true true false
  tlb.translate va ps false

/-! ### Invariant vocabulary used by the stated properties -/

/-- Shape facts guaranteed by construction: the number of sets matches the
index-bit width, every set holds `associativity` ways, and there is at least
one way. -/
def CacheWF (c : CacheState) : Prop :=
  c.sets.length = 2 ^ c.geom.index_bits ∧
  (∀ i, i < c.sets.length → (c.sets.getD i []).length = c.geom.associativity) ∧
  0 < c.geom.associativity

/-- Every valid line's `lru_counter` is at most the cache's global counter. -/
def allLinesBounded (c : CacheState) : Prop :=
  ∀ i, i < c.sets.length → ∀ j, j < (c.sets.getD i []).length →
    ((c.sets.getD i []).getD j CacheLine.init).valid = true →
    ((c.sets.getD i []).getD j CacheLine.init).lru_counter ≤ c.global_lru_counter

/-- No two distinct valid lines anywhere in the cache share the same nonzero
`lru_counter` value. -/
def lruDistinct (c : CacheState) : Prop :=
  ∀ i1, i1 < c.sets.length → ∀ j1, j1 < (c.sets.getD i1 []).length →
  ∀ i2, i2 < c.sets.length → ∀ j2, j2 < (c.sets.getD i2 []).length →
    (i1, j1) ≠ (i2, j2) →
    ((c.sets.getD i1 []).getD j1 CacheLine.init).valid = true →
    ((c.sets.getD i2 []).getD j2 CacheLine.init).valid = true →
    ((c.sets.getD i1 []).getD j1 CacheLine.init).lru_counter ≠ 0 →
    ((c.sets.getD i2 []).getD j2 CacheLine.init).lru_counter ≠ 0 →
    ((c.sets.getD i1 []).getD j1 CacheLine.init).lru_counter ≠
      ((c.sets.getD i2 []).getD j2 CacheLine.init).lru_counter

/-- The decoded readback `_read_pte` produces for a stored PTE: every stored
field, with `is_leaf` derived from the permission bits. -/
def decodedPte (p : SvPTE) : SvPTE :=
  { p with is_leaf := p.readable || p.writable || p.executable }

/-! ## Helper lemmas: lists -/

theorem getD_set_same {l : List α} {i : Nat} {a d : α} (h : i < l.length) :
    (l.set i a).getD i d = a := by
  simp [List.getD_eq_getElem?_getD, List.getElem?_set_self h]

theorem getD_set_diff {l : List α} {i j : Nat} {a d : α} (h : i ≠ j) :
    (l.set i a).getD j d = l.getD j d := by
  simp [List.getD_eq_getElem?_getD, List.getElem?_set_ne h]

theorem getD_replicate_elem {n i : Nat} {a d : α} (h : i < n) :
    (List.replicate n a).getD i d = a := by
  simp [List.getD_eq_getElem?_getD, List.getElem?_replicate, h]

theorem getD_map_elem {l : List α} {f : α → β} {i : Nat} {d : α} {e : β}
    (h : i < l.length) : (l.map f).getD i e = f (l.getD i d) := by
  simp [List.getD_eq_getElem?_getD, List.getElem?_map, List.getElem?_eq_getElem h]

theorem getD_append_mid (acc : List α) (v : α) (vs : List α) (d : α) :
    (acc ++ v :: vs).getD acc.length d = v := by
  induction acc with
  | nil => rfl
  | cons a as ih => simpa using ih

/-! ## Helper lemmas: first-index search -/

theorem firstIdxSat_lt {p : α → Bool} : ∀ {l : List α} {i : Nat},
    firstIdxSat p l = some i → i < l.length := by
  intro l
  induction l with
  | nil => intro i h; simp [firstIdxSat] at h
  | cons a as ih =>
    intro i h
    by_cases hp : p a
    · simp [firstIdxSat, hp] at h
      simp [List.length_cons]
      omega
    · simp [firstIdxSat, hp] at h
      obtain ⟨j, hj, rfl⟩ := h
      have := ih hj
      simp [List.length_cons]
      omega

theorem firstIdxSat_sat {p : α → Bool} {d : α} : ∀ {l : List α} {i : Nat},
    firstIdxSat p l = some i → p (l.getD i d) = true := by
  intro l
  induction l with
  | nil => intro i h; simp [firstIdxSat] at h
  | cons a as ih =>
    intro i h
    by_cases hp : p a
    · simp [firstIdxSat, hp] at h
      subst h
      simpa using hp
    · simp [firstIdxSat, hp] at h
      obtain ⟨j, hj, rfl⟩ := h
      simpa using ih hj

theorem firstIdxSat_earlier {p : α → Bool} {d : α} : ∀ {l : List α} {i : Nat},
    firstIdxSat p l = some i → ∀ j, j < i → p (l.getD j d) = false := by
  intro l
  induction l with
  | nil => intro i h; simp [firstIdxSat] at h
  | cons a as ih =>
    intro i h j hj
    by_cases hp : p a
    · simp [firstIdxSat, hp] at h
      omega
    · simp [firstIdxSat, hp] at h
      obtain ⟨k, hk, rfl⟩ := h
      match j with
      | 0 => simpa using hp
      | j + 1 => simpa using ih hk j (by omega)

theorem firstIdxSat_none {p : α → Bool} {d : α} : ∀ {l : List α},
    firstIdxSat p l = none → ∀ j, j < l.length → p (l.getD j d) = false := by
  intro l
  induction l with
  | nil => intro _ j hj; simp at hj
  | cons a as ih =>
    intro h j hj
    by_cases hp : p a
    · simp [firstIdxSat, hp] at h
    · simp [firstIdxSat, hp] at h
      match j with
      | 0 => simpa using hp
      | j + 1 =>
        simp at hj
        simpa using ih h j (by omega)

/-! ## Helper lemmas: first-minimum scan -/

theorem minLruGo_spec : ∀ (vs acc : List Nat) (bmin : Nat) (best : Nat),
    best < acc.length →
    (acc ++ vs).getD best 0 = bmin →
    (∀ j, j < acc.length → bmin ≤ (acc ++ vs).getD j 0) →
    (∀ j, j < best → bmin < (acc ++ vs).getD j 0) →
    minLruGo vs best bmin acc.length < (acc ++ vs).length ∧
    (∀ j, j < (acc ++ vs).length →
      (acc ++ vs).getD (minLruGo vs best bmin acc.length) 0 ≤ (acc ++ vs).getD j 0) ∧
    (∀ j, j < minLruGo vs best bmin acc.length →
      (acc ++ vs).getD (minLruGo vs best bmin acc.length) 0 < (acc ++ vs).getD j 0) := by
  intro vs
  induction vs with
  | nil =>
    intro acc bmin best hb hval hle hlt
    simp only [minLruGo]
    refine ⟨by simpa using hb, ?_, ?_⟩
    · intro j hj
      rw [hval]
      exact hle j (by simpa using hj)
    · intro j hj
      rw [hval]
      exact hlt j hj
  | cons v vs ih =>
    intro acc bmin best hb hval hle hlt
    have hacc : acc ++ v :: vs = (acc ++ [v]) ++ vs := by
      simp
    have hlen : (acc ++ [v]).length = acc.length + 1 := by simp
    have hmid : (acc ++ v :: vs).getD acc.length 0 = v := getD_append_mid acc v vs 0
    simp only [minLruGo]
    by_cases hv : v < bmin
    · rw [if_pos hv]
      have := ih (acc ++ [v]) v acc.length (by simp only [hlen]; omega)
        (by simp only [← hacc]; exact hmid)
        (by
          simp only [← hacc, hlen]
          intro j hj
          rcases Nat.lt_or_ge j acc.length with hj2 | hj2
          · exact le_of_lt (lt_of_lt_of_le hv (hle j hj2))
          · have : j = acc.length := by omega
            subst this
            rw [hmid])
        (by
          simp only [← hacc]
          intro j hj
          exact lt_of_lt_of_le hv (hle j hj))
      rw [hlen] at this
      rw [hacc]
      exact this
    · rw [if_neg hv]
      have hbv : bmin ≤ v := by omega
      have := ih (acc ++ [v]) bmin best (by simp only [hlen]; omega)
        (by simp only [← hacc]; exact hval)
        (by
          simp only [← hacc, hlen]
          intro j hj
          rcases Nat.lt_or_ge j acc.length with hj2 | hj2
          · exact hle j hj2
          · have : j = acc.length := by omega
            subst this
            rw [hmid]
            exact hbv)
        (by
          simp only [← hacc]
          intro j hj
          exact hlt j hj)
      rw [hlen] at this
      rw [hacc]
      exact this

theorem firstMinIdx_spec (L : List Nat) (h : L ≠ []) :
    firstMinIdx L < L.length ∧
    (∀ j, j < L.length → L.getD (firstMinIdx L) 0 ≤ L.getD j 0) ∧
    (∀ j, j < firstMinIdx L → L.getD (firstMinIdx L) 0 < L.getD j 0) := by
  match L with
  | [] => exact absurd rfl h
  | v :: vs =>
    have := minLruGo_spec vs [v] v 0 (by simp) (by simp)
      (by intro j hj; simp at hj; subst hj; simp)
      (by intro j hj; omega)
    simpa [firstMinIdx] using this

/-! ## Helper lemmas: little-endian byte strings -/

theorem natToBytesLE_length : ∀ (n v : Nat), (natToBytesLE n v).length = n := by
  intro n
  induction n with
  | zero => intro v; rfl
  | succ m ih => intro v; simp [natToBytesLE, ih]

theorem natFromBytesLE_natToBytesLE : ∀ (n v : Nat),
    natFromBytesLE (natToBytesLE n v) = v % 256 ^ n := by
  intro n
  induction n with
  | zero => intro v; simp [natToBytesLE, natFromBytesLE, Nat.mod_one]
  | succ m ih =>
    intro v
    rw [natToBytesLE, natFromBytesLE, ih]
    rw [Nat.pow_succ, Nat.mul_comm (256 ^ m) 256, Nat.mod_mul]

theorem map_range_getD : ∀ (l : List Nat),
    (List.range l.length).map (fun j => l.getD j 0) = l := by
  intro l
  induction l with
  | nil => rfl
  | cons b bs ih =>
    have : bs.length.succ = bs.length + 1 := rfl
    rw [List.length_cons, List.range_succ_eq_map, List.map_cons, List.map_map]
    simp only [Function.comp, List.getD_cons_zero, List.getD_cons_succ]
    rw [List.cons_inj_right]
    exact ih

theorem readBytesLE_writeBytesLE (t : PtTable) (off n v : Nat) :
    readBytesLE (writeBytesLE t off n v) off n = v % 256 ^ n := by
  rw [readBytesLE]
  have hbytes : ((List.range n).map fun j => writeBytesLE t off n v (off + j)) =
      natToBytesLE n v := by
    have hlen : (natToBytesLE n v).length = n := natToBytesLE_length n v
    have : ((List.range n).map fun j => writeBytesLE t off n v (off + j)) =
        (List.range n).map fun j => (natToBytesLE n v).getD j 0 := by
      apply List.map_congr_left
      intro j hj
      have hj : j < n := List.mem_range.mp hj
      rw [writeBytesLE]
      rw [if_pos (by omega)]
      congr 1
      omega
    rw [this]
    conv_rhs => rw [← map_range_getD (natToBytesLE n v)]
    rw [hlen]
  rw [hbytes]
  exact natFromBytesLE_natToBytesLE n v

theorem readBytesLE_writeBytesLE_eq (t : PtTable) (off n v : Nat)
    (h : v < 256 ^ n) : readBytesLE (writeBytesLE t off n v) off n = v := by
  rw [readBytesLE_writeBytesLE, Nat.mod_eq_of_lt h]

theorem natFromBytesLE_replicate_zero : ∀ n : Nat,
    natFromBytesLE (List.replicate n 0) = 0 := by
  intro n
  induction n with
  | zero => rfl
  | succ m ih => rw [List.replicate_succ, natFromBytesLE, ih]

theorem readBytesLE_zeroTable (off n : Nat) : readBytesLE zeroTable off n = 0 := by
  rw [readBytesLE]
  have : ((List.range n).map fun j => zeroTable (off + j)) = List.replicate n 0 := by
    rw [show (fun j => zeroTable (off + j)) = (fun _ : Nat => (0 : Nat)) from rfl]
    simp [List.eq_replicate_iff]
  rw [this, natFromBytesLE_replicate_zero]

/-! ## Helper lemmas: PTE encoding -/

theorem pteFlags_lt (p : SvPTE) : pteFlags p < 256 := by
  rw [pteFlags, show (256 : Nat) = 2 ^ 8 from rfl]
  repeat' apply Nat.or_lt_two_pow
  all_goals first
  | (split <;> norm_num)
  | norm_num

theorem testBit_or_if (x m : Nat) (b : Bool) (j : Nat) :
    (x ||| if b then m else 0).testBit j = (x.testBit j || (b && m.testBit j)) := by
  cases b <;> simp [Nat.testBit_or, Nat.zero_testBit]

theorem pteFlags_testBits (p : SvPTE) :
    (pteFlags p).testBit 0 = p.valid ∧
    (pteFlags p).testBit 1 = p.readable ∧
    (pteFlags p).testBit 2 = p.writable ∧
    (pteFlags p).testBit 3 = p.executable ∧
    (pteFlags p).testBit 4 = p.user ∧
    (pteFlags p).testBit 5 = p.global_page ∧
    (pteFlags p).testBit 6 = p.accessed ∧
    (pteFlags p).testBit 7 = p.dirty := by
  refine ⟨?_, ?_, ?_, ?_, ?_, ?_, ?_, ?_⟩ <;>
    rw [pteFlags, testBit_or_if, testBit_or_if, testBit_or_if, testBit_or_if,
      testBit_or_if, testBit_or_if, testBit_or_if, testBit_or_if,
      Nat.zero_testBit] <;>
    simp +decide [Nat.testBit_to_div_mod]

theorem pteValue_testBit_low (p : SvPTE) (k : Nat) (hk : k < 10) :
    (pteValue p).testBit k = (pteFlags p).testBit k := by
  rw [pteValue, Nat.testBit_or, Nat.testBit_shiftLeft]
  have h10 : ¬ (k ≥ 10) := by omega
  simp [h10]

theorem pteFlags_testBit_high (p : SvPTE) (k : Nat) (hk : 8 ≤ k) :
    (pteFlags p).testBit k = false := by
  apply Nat.testBit_lt_two_pow
  calc pteFlags p < 256 := pteFlags_lt p
    _ = 2 ^ 8 := rfl
    _ ≤ 2 ^ k := Nat.pow_le_pow_right (by norm_num) hk

theorem pteValue_shiftRight (p : SvPTE) : pteValue p >>> 10 = p.ppn := by
  apply Nat.eq_of_testBit_eq
  intro i
  rw [Nat.testBit_shiftRight, pteValue, Nat.testBit_or, Nat.testBit_shiftLeft]
  have h1 : (pteFlags p).testBit (10 + i) = false :=
    pteFlags_testBit_high p (10 + i) (by omega)
  have h2 : 10 + i - 10 = i := by omega
  have h3 : (10 + i ≥ 10) := by omega
  simp [h1, h2, h3]

theorem pteValue_lt (p : SvPTE) (h : p.ppn < 2 ^ 54) : pteValue p < 2 ^ 64 := by
  rw [pteValue]
  apply Nat.or_lt_two_pow
  · rw [Nat.shiftLeft_eq]
    calc p.ppn * 2 ^ 10 < 2 ^ 54 * 2 ^ 10 :=
          (Nat.mul_lt_mul_right (by norm_num)).mpr h
      _ = 2 ^ 64 := by norm_num
  · exact lt_of_lt_of_le (pteFlags_lt p) (by norm_num)

theorem and_mask_bool (v k : Nat) : ((v &&& 2 ^ k) != 0) = v.testBit k := by
  rw [Nat.and_two_pow]
  cases h : v.testBit k
  · simp
  · simp [(Nat.two_pow_pos k).ne']

theorem decodePteValue_pteValue (p : SvPTE) :
    decodePteValue (pteValue p) = decodedPte p := by
  obtain ⟨hb0, hb1, hb2, hb3, hb4, hb5, hb6, hb7⟩ := pteFlags_testBits p
  have e0 : ((pteValue p &&& 0x01) != 0) = p.valid := by
    rw [show (0x01 : Nat) = 2 ^ 0 from rfl, and_mask_bool,
      pteValue_testBit_low p 0 (by omega), hb0]
  have e1 : ((pteValue p &&& 0x02) != 0) = p.readable := by
    rw [show (0x02 : Nat) = 2 ^ 1 from rfl, and_mask_bool,
      pteValue_testBit_low p 1 (by omega), hb1]
  have e2 : ((pteValue p &&& 0x04) != 0) = p.writable := by
    rw [show (0x04 : Nat) = 2 ^ 2 from rfl, and_mask_bool,
      pteValue_testBit_low p 2 (by omega), hb2]
  have e3 : ((pteValue p &&& 0x08) != 0) = p.executable := by
    rw [show (0x08 : Nat) = 2 ^ 3 from rfl, and_mask_bool,
      pteValue_testBit_low p 3 (by omega), hb3]
  have e4 : ((pteValue p &&& 0x10) != 0) = p.user := by
    rw [show (0x10 : Nat) = 2 ^ 4 from rfl, and_mask_bool,
      pteValue_testBit_low p 4 (by omega), hb4]
  have e5 : ((pteValue p &&& 0x20) != 0) = p.global_page := by
    rw [show (0x20 : Nat) = 2 ^ 5 from rfl, and_mask_bool,
      pteValue_testBit_low p 5 (by omega), hb5]
  have e6 : ((pteValue p &&& 0x40) != 0) = p.accessed := by
    rw [show (0x40 : Nat) = 2 ^ 6 from rfl, and_mask_bool,
      pteValue_testBit_low p 6 (by omega), hb6]
  have e7 : ((pteValue p &&& 0x80) != 0) = p.dirty := by
    rw [show (0x80 : Nat) = 2 ^ 7 from rfl, and_mask_bool,
      pteValue_testBit_low p 7 (by omega), hb7]
  have e8 : pteValue p >>> 10 = p.ppn := pteValue_shiftRight p
  obtain ⟨pv, ppnv, pr, pw, px, pu, pg, pacc, pd, pl⟩ := p
  simp only [decodePteValue, decodedPte, SvPTE.mk.injEq]
  exact ⟨e0, e8, e1, e2, e3, e4, e5, e6, e7, by rw [e1, e2, e3]⟩

theorem decodePteValue_pteValue_mod (p : SvPTE) (h : p.ppn < 2 ^ 54) :
    decodePteValue (pteValue p % 2 ^ 64) = decodedPte p := by
  rw [Nat.mod_eq_of_lt (pteValue_lt p h), decodePteValue_pteValue]

/-! ## Helper lemmas: simulated physical memory -/

theorem memStore_same (m : PtMem) (k : Nat) (t : PtTable) :
    memStore m k t k = some t := by
  rw [memStore]
  simp

theorem memStore_diff (m : PtMem) (k : Nat) (t : PtTable) (a : Nat) (h : a ≠ k) :
    memStore m k t a = m a := by
  rw [memStore]
  simp [h]

theorem readPte_of_mem (m : PtMem) (tpa idx : Nat) (t : PtTable)
    (hm : m tpa = some t) :
    readPte m tpa idx = some (decodePteValue (readBytesLE t (idx * 8) 8)) := by
  rw [readPte, hm]
  rfl

theorem writePte_of_mem (m : PtMem) (tpa idx : Nat) (p : SvPTE) (t : PtTable)
    (hm : m tpa = some t) :
    writePte m tpa idx p =
      some (memStore m tpa (writeBytesLE t (idx * 8) 8 (pteValue p))) := by
  rw [writePte, hm]
  rfl

theorem decode_read_write_same (t : PtTable) (idx : Nat) (p : SvPTE)
    (h : p.ppn < 2 ^ 54) :
    decodePteValue (readBytesLE (writeBytesLE t (idx * 8) 8 (pteValue p)) (idx * 8) 8) =
      decodedPte p := by
  rw [readBytesLE_writeBytesLE, show (256 : Nat) ^ 8 = 2 ^ 64 from by norm_num,
    decodePteValue_pteValue_mod p h]

theorem decode_zeroTable (off : Nat) :
    decodePteValue (readBytesLE zeroTable off 8) = SvPTE.init := by
  rw [readBytesLE_zeroTable]
  rfl

theorem natToBytesLE_getD : ∀ (n v j : Nat), j < n →
    (natToBytesLE n v).getD j 0 = v / 256 ^ j % 256 := by
  intro n
  induction n with
  | zero => intro v j hj; omega
  | succ m ih =>
    intro v j hj
    match j with
    | 0 => simp [natToBytesLE]
    | j + 1 =>
      rw [natToBytesLE, List.getD_cons_succ, ih (v / 256) j (by omega),
        Nat.div_div_eq_div_mul, Nat.pow_succ]
      ring_nf

/-- C6: the stored 8-byte PTE word is little-endian with bits [63:10] the
PPN and bits 0–7 the valid/R/W/X/user/global/accessed/dirty flags, and
`_read_pte` after `_write_pte` at the same table and index recovers every
stored field, with `is_leaf` derived as `readable or writable or
executable`.  (`p.ppn < 2^54` is exactly the range in which the 8-byte
`to_bytes` encoding of `_write_pte` is defined.) -/
theorem pte_encode_layout_roundtrip (m : PtMem) (tpa idx : Nat) (p : SvPTE)
    (t : PtTable) (hm : m tpa = some t) (h : p.ppn < 2 ^ 54) :
    writePte m tpa idx p =
      some (memStore m tpa (writeBytesLE t (idx * 8) 8 (pteValue p))) ∧
    (∀ j, j < 8 → writeBytesLE t (idx * 8) 8 (pteValue p) (idx * 8 + j) =
      pteValue p / 256 ^ j % 256) ∧
    (pteValue p).testBit 0 = p.valid ∧
    (pteValue p).testBit 1 = p.readable ∧
    (pteValue p).testBit 2 = p.writable ∧
    (pteValue p).testBit 3 = p.executable ∧
    (pteValue p).testBit 4 = p.user ∧
    (pteValue p).testBit 5 = p.global_page ∧
    (pteValue p).testBit 6 = p.accessed ∧
    (pteValue p).testBit 7 = p.dirty ∧
    pteValue p >>> 10 = p.ppn ∧
    (writePte m tpa idx p).bind (fun m2 => readPte m2 tpa idx) =
      some { p with is_leaf := p.readable || p.writable || p.executable } := by
  obtain ⟨hb0, hb1, hb2, hb3, hb4, hb5, hb6, hb7⟩ := pteFlags_testBits p
  refine ⟨writePte_of_mem m tpa idx p t hm, ?_, ?_, ?_, ?_, ?_, ?_, ?_, ?_, ?_,
    pteValue_shiftRight p, ?_⟩
  · intro j hj
    rw [writeBytesLE, if_pos (by omega)]
    rw [show idx * 8 + j - idx * 8 = j from by omega]
    exact natToBytesLE_getD 8 (pteValue p) j hj
  · rw [pteValue_testBit_low p 0 (by omega), hb0]
  · rw [pteValue_testBit_low p 1 (by omega), hb1]
  · rw [pteValue_testBit_low p 2 (by omega), hb2]
  · rw [pteValue_testBit_low p 3 (by omega), hb3]
  · rw [pteValue_testBit_low p 4 (by omega), hb4]
  · rw [pteValue_testBit_low p 5 (by omega), hb5]
  · rw [pteValue_testBit_low p 6 (by omega), hb6]
  · rw [pteValue_testBit_low p 7 (by omega), hb7]
  · rw [writePte_of_mem m tpa idx p t hm, Option.some_bind,
      readPte_of_mem _ tpa idx _ (memStore_same m tpa _),
      decode_read_write_same t idx p h]
    rfl

/-- Witness for C6 at a concrete memory, table, index and PTE. -/
theorem pte_encode_layout_roundtrip_witness :
    ((memStore (fun _ => none) 0x1000 zeroTable) 0x1000 = some zeroTable ∧
     (0x12345 : Nat) < 2 ^ 54) ∧
    ((writePte (memStore (fun _ => none) 0x1000 zeroTable) 0x1000 3
        ⟨true, 0x12345, true, false, true, true, false, true, false, false⟩).bind
      (fun m2 => readPte m2 0x1000 3) =
      some ⟨true, 0x12345, true, false, true, true, false, true, false, true⟩) := by
  refine ⟨⟨rfl, by norm_num⟩, ?_⟩
  have := pte_encode_layout_roundtrip (memStore (fun _ => none) 0x1000 zeroTable)
    0x1000 3 ⟨true, 0x12345, true, false, true, true, false, true, false, false⟩
    zeroTable rfl (by norm_num)
  exact this.2.2.2.2.2.2.2.2.2.2.2

/-! ## Helper lemmas: TLB -/

theorem TLB.findVictim_lt (t : TLB) (hne : t.entries ≠ []) :
    t.findVictim < t.entries.length := by
  rw [TLB.findVictim]
  cases hf : firstIdxSat (fun e => !e.valid) t.entries with
  | some i => exact firstIdxSat_lt hf
  | none =>
    have hmap : (t.entries.map (·.lru_counter)) ≠ [] := by
      simpa using hne
    have := (firstMinIdx_spec _ hmap).1
    simpa using this

/-- Core of the TLB permission-fault path: a hit on a non-writable entry with
`is_write = True` bumps `hits` and returns `None` with no other state change. -/
theorem tlb_hit_nonwritable_translate (t : TLB) (va : Nat) (ps : PageSize)
    (idx : Nat)
    (hfind : t.findEntry (extractVpn va ps) ps = some idx)
    (hw : (t.entries.getD idx TLBEntry.init).writable = false) :
    t.translate va ps true = (none, { t with hits := t.hits + 1 }) := by
  simp only [TLB.translate]
  rw [hfind]
  have hw2 : (t.entries.getD idx TLBEntry.init).writable = false := hw
  simp only [List.getD_eq_getElem?_getD] at hw2
  simp [hw2]

/-- C9: a `translate` that hits a valid matching entry but requests a write
the entry does not permit increments `hits` (not `misses`) and leaves every
TLB entry untouched — no LRU bump, no accessed/dirty update, no install, no
eviction. -/
theorem tlb_perm_fault_state_unchanged (t : TLB) (va : Nat) (ps : PageSize)
    (idx : Nat)
    (hfind : t.findEntry (extractVpn va ps) ps = some idx)
    (hw : (t.entries.getD idx TLBEntry.init).writable = false) :
    t.translate va ps true = (none, { t with hits := t.hits + 1 }) :=
  tlb_hit_nonwritable_translate t va ps idx hfind hw

/-- Witness for C9: one valid write-protected entry mapping VPN 0x401. -/
theorem tlb_perm_fault_state_unchanged_witness :
    (TLB.findEntry ⟨[⟨true, 0x401, 0x12345, .kb4, true, false, false, false,
        false, false, 0⟩], 0, 0, 0, []⟩ (extractVpn 0x401000 .kb4) .kb4 =
      some 0 ∧
     ((⟨[⟨true, 0x401, 0x12345, .kb4, true, false, false, false, false, false,
        0⟩], 0, 0, 0, []⟩ : TLB).entries.getD 0 TLBEntry.init).writable =
      false) ∧
    TLB.translate ⟨[⟨true, 0x401, 0x12345, .kb4, true, false, false, false,
        false, false, 0⟩], 0, 0, 0, []⟩ 0x401000 .kb4 true =
      (none, ⟨[⟨true, 0x401, 0x12345, .kb4, true, false, false, false, false,
        false, 0⟩], 1, 0, 0, []⟩) := by
  refine ⟨⟨by decide, by decide⟩, ?_⟩
  exact tlb_perm_fault_state_unchanged _ 0x401000 .kb4 0 (by decide) (by decide)

/-- C3 counterexample: the permission fault and the miss-path page fault
return the identical value `None` — the two outcomes are not distinguishable
by `translate`'s result. -/
theorem tlb_perm_fault_indistinguishable_cex :
    (TLB.translate ⟨[⟨true, 0x401, 0x12345, .kb4, true, false, false, false,
        false, false, 0⟩], 0, 0, 0, []⟩ 0x401000 .kb4 true).1 = none ∧
    (TLB.translate (TLB.new 1) 0x401000 .kb4 true).1 = none ∧
    (TLB.translate ⟨[⟨true, 0x401, 0x12345, .kb4, true, false, false, false,
        false, false, 0⟩], 0, 0, 0, []⟩ 0x401000 .kb4 true).1 =
      (TLB.translate (TLB.new 1) 0x401000 .kb4 true).1 := by
  decide

/-- C3 amended: a write hit on a non-writable entry returns the fault value
`None` and never consults the simulated page table — the result and the
updated state are the same for every `page_table` content — but the fault is
distinguishable from a miss-path page fault only through the statistics
(`hits` is bumped), not through the returned value. -/
theorem tlb_perm_fault_no_walk (t : TLB) (va : Nat) (ps : PageSize)
    (idx : Nat)
    (hfind : t.findEntry (extractVpn va ps) ps = some idx)
    (hw : (t.entries.getD idx TLBEntry.init).writable = false) :
    t.translate va ps true = (none, { t with hits := t.hits + 1 }) ∧
    (∀ pt2 : List ((Nat × PageSize) × Nat),
      TLB.translate { t with page_table := pt2 } va ps true =
        (none, { t with page_table := pt2, hits := t.hits + 1 })) := by
  refine ⟨tlb_hit_nonwritable_translate t va ps idx hfind hw, ?_⟩
  intro pt2
  exact tlb_hit_nonwritable_translate { t with page_table := pt2 } va ps idx
    hfind hw

/-- Witness for C3's amended theorem. -/
theorem tlb_perm_fault_no_walk_witness :
    (TLB.findEntry ⟨[⟨true, 0x402, 0x222, .kb4, true, false, false, false,
        false, false, 0⟩], 3, 2, 5, []⟩ (extractVpn 0x402678 .kb4) .kb4 =
      some 0 ∧
     ((⟨[⟨true, 0x402, 0x222, .kb4, true, false, false, false, false, false,
        0⟩], 3, 2, 5, []⟩ : TLB).entries.getD 0 TLBEntry.init).writable =
      false) ∧
    (TLB.translate ⟨[⟨true, 0x402, 0x222, .kb4, true, false, false, false,
        false, false, 0⟩], 3, 2, 5, []⟩ 0x402678 .kb4 true =
      (none, ⟨[⟨true, 0x402, 0x222, .kb4, true, false, false, false, false,
        false, 0⟩], 4, 2, 5, []⟩) ∧
     (∀ pt2 : List ((Nat × PageSize) × Nat),
       TLB.translate ⟨[⟨true, 0x402, 0x222, .kb4, true, false, false, false,
          false, false, 0⟩], 3, 2, 5, pt2⟩ 0x402678 .kb4 true =
        (none, ⟨[⟨true, 0x402, 0x222, .kb4, true, false, false, false, false,
          false, 0⟩], 4, 2, 5, pt2⟩))) := by
  refine ⟨⟨by decide, by decide⟩, ?_⟩
  exact tlb_perm_fault_no_walk _ 0x402678 .kb4 0 (by decide) (by decide)

/-- C1 amended: on a TLB miss whose page walk succeeds, the composed
physical address is returned, and the installed entry carries the *fixed
default* permissions `readable=True, writable=True, executable=False` — the
simplified page table stores only the PPN, so the permissions passed to the
preceding `install_mapping` are not propagated. -/
theorem tlb_miss_install_default_perms (t : TLB) (va : Nat) (ps : PageSize)
    (w : Bool) (ppn : Nat)
    (hne : t.entries ≠ [])
    (hmiss : t.findEntry (extractVpn va ps) ps = none)
    (hwalk : t.pageWalk (extractVpn va ps) ps = some ppn) :
    (t.translate va ps w).1 = some (constructPa ppn (extractOffset va ps) ps) ∧
    (t.translate va ps w).2.entries.getD t.findVictim TLBEntry.init =
      ⟨true, extractVpn va ps, ppn, ps, true, true, false, w, true, false,
        t.global_lru_counter + 1⟩ := by
  simp only [TLB.translate]
  rw [hmiss, hwalk]
  refine ⟨rfl, ?_⟩
  exact getD_set_same (TLB.findVictim_lt t hne)

/-- Witness for C1's amended theorem: install a mapping with
`writable=False`, then miss-translate it. -/
theorem tlb_miss_install_default_perms_witness :
    (((TLB.new 2).installMapping 0x401000 0x12345000 .kb4 true false
        false).entries ≠ [] ∧
     ((TLB.new 2).installMapping 0x401000 0x12345000 .kb4 true false
        false).findEntry (extractVpn 0x401234 .kb4) .kb4 = none ∧
     ((TLB.new 2).installMapping 0x401000 0x12345000 .kb4 true false
        false).pageWalk (extractVpn 0x401234 .kb4) .kb4 = some 0x12345) ∧
    ((((TLB.new 2).installMapping 0x401000 0x12345000 .kb4 true false
        false).translate 0x401234 .kb4 false).1 =
      some (constructPa 0x12345 (extractOffset 0x401234 .kb4) .kb4) ∧
     (((TLB.new 2).installMapping 0x401000 0x12345000 .kb4 true false
        false).translate 0x401234 .kb4 false).2.entries.getD
        ((TLB.new 2).installMapping 0x401000 0x12345000 .kb4 true false
          false).findVictim TLBEntry.init =
      ⟨true, extractVpn 0x401234 .kb4, 0x12345, .kb4, true, true, false,
        false, true, false, 1⟩) := by
  refine ⟨⟨by decide, by decide, by decide⟩, ?_⟩
  exact tlb_miss_install_default_perms _ 0x401234 .kb4 false 0x12345
    (by decide) (by decide) (by decide)

/-- C1 counterexample: after `install_mapping(..., writable=False)`, the
entry installed by the miss path does *not* carry that permission — its
`writable` field is `true`, not `false`. -/
theorem tlb_install_ignores_walk_perms_cex :
    ¬ ((((TLB.new 2).installMapping 0x401000 0x12345000 .kb4 true false
        false).translate 0x401234 .kb4 false).2.entries.getD 0
        TLBEntry.init).writable = false := by
  decide

/-- C8 (code bug): the `/api/tlb/translate` handler looks the page-size
string up with a defaulting `dict.get`; the out-of-enumeration string
`"8MB"` is not rejected — the request proceeds with the 4 KiB default and
succeeds. -/
theorem webapp_page_size_silent_default :
    pageSizeOfString "8MB" = none ∧
    (tlbTranslateHandler 64 0x401000 "8MB").1 = some 0x10401000 := by
  refine ⟨by decide, by decide⟩

/-! ## Cache geometry (C2) -/

/-- C2 counterexample: `Cache(512, 64, 3, 32)` is accepted — `num_sets =
(512 // 64) // 3 = 2` is a power of two — yet `2 * 3 * 64 = 384 ≠ 512`. -/
theorem cache_geometry_size_equation_cex :
    (cacheInit 512 64 3 32).map
      (fun g => g.num_sets * g.associativity * g.block_size) = some 384 ∧
    (384 : Nat) ≠ 512 := by
  refine ⟨by decide, by decide⟩

/-- C2 amended: for every parameter combination the constructor accepts, the
bit-field widths always satisfy `offset_bits + index_bits + tag_bits =
address_bits`; the size identity `num_sets * associativity * block_size =
size` holds exactly when the associativity divides the block count
`size / block_size` (floor division silently drops the remainder
otherwise). -/
theorem cache_geometry_invariant_amended (size block_size associativity : Nat)
    (address_bits : Int) (g : CacheGeom)
    (h : cacheInit size block_size associativity address_bits = some g) :
    (g.offset_bits : Int) + g.index_bits + g.tag_bits = g.address_bits ∧
    g.address_bits = address_bits ∧
    (associativity ∣ size / block_size →
      g.num_sets * g.associativity * g.block_size = g.size) := by
  rw [cacheInit] at h
  by_cases h0 : size = 0 ∨ block_size = 0 ∨ associativity = 0
  · rw [if_pos h0] at h
    exact absurd h (by simp)
  rw [if_neg h0] at h
  by_cases h1 : size % block_size ≠ 0
  · rw [if_pos h1] at h
    exact absurd h (by simp)
  rw [if_neg h1] at h
  by_cases h2 : ¬ isPow2 block_size = true
  · rw [if_pos h2] at h
    exact absurd h (by simp)
  rw [if_neg h2] at h
  by_cases h3 : ¬ isPow2 (size / block_size / associativity) = true
  · rw [if_pos h3] at h
    exact absurd h (by simp)
  rw [if_neg h3] at h
  simp only [Option.some.injEq] at h
  subst h
  refine ⟨by ring, rfl, ?_⟩
  intro hdvd
  have hb : block_size ∣ size := Nat.dvd_of_mod_eq_zero (by omega)
  have e1 : size / block_size / associativity * associativity =
      size / block_size := Nat.div_mul_cancel hdvd
  have e2 : size / block_size * block_size = size := Nat.div_mul_cancel hb
  calc size / block_size / associativity * associativity * block_size
      = size / block_size * block_size := by rw [e1]
    _ = size := e2

/-- Witness for C2's amended theorem at `Cache(64, 16, 2, 32)`. -/
theorem cache_geometry_invariant_amended_witness :
    cacheInit 64 16 2 32 = some ⟨64, 16, 2, 32, 4, 2, 4, 1, 27⟩ ∧
    (((4 : Nat) : Int) + (1 : Nat) + 27 = 32 ∧
     (32 : Int) = 32 ∧
     ((2 : Nat) ∣ 64 / 16 → (2 : Nat) * 2 * 16 = 64)) := by
  refine ⟨by decide, ?_⟩
  exact cache_geometry_invariant_amended 64 16 2 32 ⟨64, 16, 2, 32, 4, 2, 4, 1, 27⟩
    (by decide)

/-! ## Cache victim selection (C7) -/

theorem cacheFindVictim_eq_some {s : List CacheLine} {i : Nat}
    (hf : firstIdxSat (fun l => !l.valid) s = some i) : cacheFindVictim s = i := by
  rw [cacheFindVictim, hf]

theorem cacheFindVictim_eq_none {s : List CacheLine}
    (hf : firstIdxSat (fun l => !l.valid) s = none) :
    cacheFindVictim s = firstMinIdx (s.map (·.lru_counter)) := by
  rw [cacheFindVictim, hf]

/-- C7: on a miss, the way the new line is installed into is
`cacheFindVictim`, which picks the lowest-indexed invalid way when the set
has one, and otherwise the way with the minimum `lru_counter`, ties broken
by the lowest way index (every earlier way has a strictly larger counter). -/
theorem cache_victim_selection_spec (c : CacheState) (addr : Nat)
    (ty : AccessType) (vb : Bool) (s : List CacheLine) (d : AddrParts)
    (hd : decomposeAddress c.geom addr = d)
    (hs : c.sets.getD d.index [] = s)
    (hne : s ≠ [])
    (hmiss : findLine s d.tag = none) :
    cacheFindVictim s < s.length ∧
    ((∃ j, j < s.length ∧ (s.getD j CacheLine.init).valid = false) →
      ((s.getD (cacheFindVictim s) CacheLine.init).valid = false ∧
       ∀ j, j < cacheFindVictim s → (s.getD j CacheLine.init).valid = true)) ∧
    ((∀ j, j < s.length → (s.getD j CacheLine.init).valid = true) →
      ((∀ j, j < s.length →
         (s.getD (cacheFindVictim s) CacheLine.init).lru_counter ≤
           (s.getD j CacheLine.init).lru_counter) ∧
       (∀ j, j < cacheFindVictim s →
         (s.getD (cacheFindVictim s) CacheLine.init).lru_counter <
           (s.getD j CacheLine.init).lru_counter))) ∧
    (c.access addr ty vb).2.sets =
      c.sets.set d.index (s.set (cacheFindVictim s)
        ⟨true, ty = .write, d.tag, c.global_lru_counter + 1⟩) := by
  have hmapne : (s.map (·.lru_counter)) ≠ [] := by simpa using hne
  have hmaplen : (s.map (·.lru_counter)).length = s.length := by simp
  refine ⟨?_, ?_, ?_, ?_⟩
  · cases hf : firstIdxSat (fun l => !l.valid) s with
    | some i => rw [cacheFindVictim_eq_some hf]; exact firstIdxSat_lt hf
    | none =>
      rw [cacheFindVictim_eq_none hf]
      have := (firstMinIdx_spec _ hmapne).1
      omega
  · intro ⟨j, hj, hjinv⟩
    cases hf : firstIdxSat (fun l => !l.valid) s with
    | some i =>
      rw [cacheFindVictim_eq_some hf]
      constructor
      · have := firstIdxSat_sat (d := CacheLine.init) hf
        simpa using this
      · intro k hk
        have := firstIdxSat_earlier (d := CacheLine.init) hf k hk
        simpa using this
    | none =>
      have := firstIdxSat_none (d := CacheLine.init) hf j hj
      have hjinv2 := hjinv
      simp only [List.getD_eq_getElem?_getD] at hjinv2
      simp [hjinv2] at this
  · intro hall
    cases hf : firstIdxSat (fun l => !l.valid) s with
    | some i =>
      have hsat := firstIdxSat_sat (d := CacheLine.init) hf
      have hi := firstIdxSat_lt hf
      have := hall i hi
      rw [this] at hsat
      simp at hsat
    | none =>
      rw [cacheFindVictim_eq_none hf]
      obtain ⟨hm1, hm2, hm3⟩ := firstMinIdx_spec _ hmapne
      rw [hmaplen] at hm1
      constructor
      · intro j hj
        have := hm2 j (by omega)
        rwa [getD_map_elem (d := CacheLine.init) hm1,
          getD_map_elem (d := CacheLine.init) hj] at this
      · intro j hj
        have := hm3 j hj
        rwa [getD_map_elem (d := CacheLine.init) hm1,
          getD_map_elem (d := CacheLine.init) (by omega)] at this
  · simp only [CacheState.access]
    rw [hd, hs, hmiss]

/-- Witness for C7: a cold 2-way set, read of 0x1000 (tag 32, set 0). -/
theorem cache_victim_selection_spec_witness :
    (decomposeAddress (CacheState.init ⟨256, 64, 2, 32, 4, 2, 6, 1, 25⟩).geom
        0x1000 = ⟨32, 0, 0⟩ ∧
     (CacheState.init ⟨256, 64, 2, 32, 4, 2, 6, 1, 25⟩).sets.getD 0 [] =
        [CacheLine.init, CacheLine.init] ∧
     ([CacheLine.init, CacheLine.init] : List CacheLine) ≠ [] ∧
     findLine [CacheLine.init, CacheLine.init] 32 = none) ∧
    (cacheFindVictim [CacheLine.init, CacheLine.init] < 2 ∧
     ((∃ j, j < 2 ∧
        (([CacheLine.init, CacheLine.init] : List CacheLine).getD j
          CacheLine.init).valid = false) →
       ((([CacheLine.init, CacheLine.init] : List CacheLine).getD
          (cacheFindVictim [CacheLine.init, CacheLine.init])
          CacheLine.init).valid = false ∧
        ∀ j, j < cacheFindVictim [CacheLine.init, CacheLine.init] →
          (([CacheLine.init, CacheLine.init] : List CacheLine).getD j
            CacheLine.init).valid = true)) ∧
     ((∀ j, j < 2 →
        (([CacheLine.init, CacheLine.init] : List CacheLine).getD j
          CacheLine.init).valid = true) →
       ((∀ j, j < 2 →
          (([CacheLine.init, CacheLine.init] : List CacheLine).getD
            (cacheFindVictim [CacheLine.init, CacheLine.init])
            CacheLine.init).lru_counter ≤
            (([CacheLine.init, CacheLine.init] : List CacheLine).getD j
              CacheLine.init).lru_counter) ∧
        (∀ j, j < cacheFindVictim [CacheLine.init, CacheLine.init] →
          (([CacheLine.init, CacheLine.init] : List CacheLine).getD
            (cacheFindVictim [CacheLine.init, CacheLine.init])
            CacheLine.init).lru_counter <
            (([CacheLine.init, CacheLine.init] : List CacheLine).getD j
              CacheLine.init).lru_counter))) ∧
     ((CacheState.init ⟨256, 64, 2, 32, 4, 2, 6, 1, 25⟩).access 0x1000 .read
        false).2.sets =
       (CacheState.init ⟨256, 64, 2, 32, 4, 2, 6, 1, 25⟩).sets.set 0
         (([CacheLine.init, CacheLine.init] : List CacheLine).set
           (cacheFindVictim [CacheLine.init, CacheLine.init])
           ⟨true, false, 32, 1⟩)) := by
  refine ⟨⟨by decide, by decide, by decide, by decide⟩, ?_⟩
  exact cache_victim_selection_spec (CacheState.init ⟨256, 64, 2, 32, 4, 2, 6,
    1, 25⟩) 0x1000 .read false [CacheLine.init, CacheLine.init] ⟨32, 0, 0⟩
    (by decide) (by decide) (by decide) (by decide)

/-! ## Helper lemmas: powers of two and the constructor's log2 -/

theorem testBit_true_ne_zero {x k : Nat} (h : x.testBit k = true) : x ≠ 0 := by
  intro h0
  rw [h0, Nat.zero_testBit] at h
  exact Bool.false_ne_true h

theorem isPow2_eq_two_pow_log2 (n : Nat) (h : isPow2 n = true) :
    n = 2 ^ Nat.log2 n := by
  rw [isPow2, Bool.and_eq_true, decide_eq_true_eq, beq_iff_eq] at h
  obtain ⟨hpos, hand⟩ := h
  set k := Nat.log2 n with hk
  have hle : 2 ^ k ≤ n := Nat.log2_self_le (by omega)
  have hlt : n < 2 ^ (k + 1) := Nat.lt_log2_self
  by_contra hne
  have hr : 0 < n - 2 ^ k := by omega
  have hrlt : n - 2 ^ k < 2 ^ k := by
    have : 2 ^ (k + 1) = 2 ^ k + 2 ^ k := by rw [Nat.pow_succ]; omega
    omega
  have hbn : n.testBit k = true := by
    rw [show n = 2 ^ k + (n - 2 ^ k) from by omega,
      Nat.testBit_two_pow_add_eq, Nat.testBit_lt_two_pow hrlt]
    rfl
  have hbn1 : (n - 1).testBit k = true := by
    rw [show n - 1 = 2 ^ k + (n - 2 ^ k - 1) from by omega,
      Nat.testBit_two_pow_add_eq, Nat.testBit_lt_two_pow (by omega)]
    rfl
  have : (n &&& (n - 1)).testBit k = true := by
    rw [Nat.testBit_and, hbn, hbn1]
    rfl
  exact testBit_true_ne_zero this hand

theorem log2Aux_two_pow : ∀ (k fuel : Nat), 2 ^ k ≤ fuel →
    log2Aux fuel (2 ^ k) = k := by
  intro k
  induction k with
  | zero =>
    intro fuel hf
    match fuel with
    | f + 1 => simp [log2Aux]
  | succ j ih =>
    intro fuel hf
    have h2 : (2 : Nat) ≤ 2 ^ (j + 1) := by
      calc (2 : Nat) = 2 ^ 1 := rfl
        _ ≤ 2 ^ (j + 1) := Nat.pow_le_pow_right (by omega) (by omega)
    match fuel with
    | 0 => omega
    | f + 1 =>
      rw [log2Aux, if_pos h2]
      have hdiv : 2 ^ (j + 1) / 2 = 2 ^ j := by
        rw [Nat.pow_succ, Nat.mul_div_cancel _ (by omega)]
      rw [hdiv, ih f ?_]
      have : 2 ^ j < 2 ^ (j + 1) := Nat.pow_lt_pow_right (by omega) (by omega)
      omega

theorem intLog2_two_pow (k : Nat) : intLog2 (2 ^ k) = k :=
  log2Aux_two_pow k (2 ^ k) (Nat.le_refl _)

theorem isPow2_two_pow_intLog2 (n : Nat) (h : isPow2 n = true) :
    2 ^ intLog2 n = n := by
  conv_lhs => rw [isPow2_eq_two_pow_log2 n h]
  rw [intLog2_two_pow, ← isPow2_eq_two_pow_log2 n h]

/-! ## Cache LRU invariant (C10) -/

theorem decompose_index_lt (g : CacheGeom) (addr : Nat) :
    (decomposeAddress g addr).index < 2 ^ g.index_bits := by
  rw [decomposeAddress]
  simp only [Nat.one_shiftLeft, Nat.and_pow_two_sub_one_eq_mod]
  exact Nat.mod_lt _ (Nat.two_pow_pos _)

/-- One access updates exactly one line (at the accessed set's chosen way),
giving it the freshly bumped counter; everything needed to carry the LRU
invariants is preserved. -/
theorem inv_update (c c2 : CacheState) (idx way : Nat) (nl : CacheLine)
    (hidx : idx < c.sets.length)
    (hway : way < (c.sets.getD idx []).length)
    (hsets : c2.sets = c.sets.set idx ((c.sets.getD idx []).set way nl))
    (hglc : c2.global_lru_counter = c.global_lru_counter + 1)
    (hlru : nl.lru_counter = c.global_lru_counter + 1)
    (hgeom : c2.geom = c.geom)
    (hwf : CacheWF c) (hb : allLinesBounded c) (hdist : lruDistinct c) :
    CacheWF c2 ∧ allLinesBounded c2 ∧ lruDistinct c2 := by
  obtain ⟨hwf1, hwf2, hwf3⟩ := hwf
  have hlen2 : c2.sets.length = c.sets.length := by rw [hsets, List.length_set]
  have hsetD : ∀ i, c2.sets.getD i [] =
      if i = idx then (c.sets.getD idx []).set way nl else c.sets.getD i [] := by
    intro i
    by_cases hi : i = idx
    · subst hi
      rw [hsets, getD_set_same hidx, if_pos rfl]
    · rw [hsets, getD_set_diff (fun h => hi h.symm), if_neg hi]
  have hlineD : ∀ i j, (c2.sets.getD i []).getD j CacheLine.init =
      if i = idx ∧ j = way then nl
      else (c.sets.getD i []).getD j CacheLine.init := by
    intro i j
    rw [hsetD i]
    by_cases hi : i = idx
    · subst hi
      rw [if_pos rfl]
      by_cases hj : j = way
      · subst hj
        rw [getD_set_same hway, if_pos ⟨rfl, rfl⟩]
      · rw [getD_set_diff (fun h => hj h.symm), if_neg (fun h => hj h.2)]
    · rw [if_neg hi, if_neg (fun h => hi h.1)]
  have hslen : ∀ i, (c2.sets.getD i []).length = (c.sets.getD i []).length := by
    intro i
    rw [hsetD i]
    by_cases hi : i = idx
    · subst hi
      rw [if_pos rfl, List.length_set]
    · rw [if_neg hi]
  refine ⟨⟨?_, ?_, ?_⟩, ?_, ?_⟩
  · rw [hlen2, hgeom, hwf1]
  · intro i hi
    rw [hslen i, hgeom]
    exact hwf2 i (by omega)
  · rw [hgeom]; exact hwf3
  · intro i hi j hj hvalid
    rw [hlineD i j] at hvalid ⊢
    rw [hlen2] at hi
    rw [hslen i] at hj
    rw [hglc]
    by_cases hij : i = idx ∧ j = way
    · rw [if_pos hij] at hvalid ⊢
      omega
    · rw [if_neg hij] at hvalid ⊢
      have := hb i hi j hj hvalid
      omega
  · intro i1 hi1 j1 hj1 i2 hi2 j2 hj2 hne hv1 hv2 hz1 hz2
    rw [hlen2] at hi1 hi2
    rw [hslen i1] at hj1
    rw [hslen i2] at hj2
    rw [hlineD i1 j1] at hv1 hz1 ⊢
    rw [hlineD i2 j2] at hv2 hz2 ⊢
    by_cases h1 : i1 = idx ∧ j1 = way
    · rw [if_pos h1] at hz1 ⊢
      by_cases h2 : i2 = idx ∧ j2 = way
      · exact absurd (by rw [h1.1, h1.2, h2.1, h2.2] : (i1, j1) = (i2, j2)) hne
      · rw [if_neg h2] at hv2 hz2 ⊢
        have := hb i2 hi2 j2 hj2 hv2
        omega
    · rw [if_neg h1] at hv1 hz1 ⊢
      by_cases h2 : i2 = idx ∧ j2 = way
      · rw [if_pos h2] at hz2 ⊢
        have := hb i1 hi1 j1 hj1 hv1
        omega
      · rw [if_neg h2] at hv2 hz2 ⊢
        exact hdist i1 hi1 j1 hj1 i2 hi2 j2 hj2 hne hv1 hv2 hz1 hz2

theorem cacheFindVictim_lt {s : List CacheLine} (hne : s ≠ []) :
    cacheFindVictim s < s.length := by
  cases hf : firstIdxSat (fun l => !l.valid) s with
  | some i => rw [cacheFindVictim_eq_some hf]; exact firstIdxSat_lt hf
  | none =>
    rw [cacheFindVictim_eq_none hf]
    have hmapne : (s.map (·.lru_counter)) ≠ [] := by simpa using hne
    have := (firstMinIdx_spec _ hmapne).1
    have hmaplen : (s.map (·.lru_counter)).length = s.length := by simp
    omega

/-- Every single `Cache.access` bumps the global LRU counter by exactly one
and preserves the LRU invariants. -/
theorem access_step_inv (c : CacheState) (addr : Nat) (ty : AccessType)
    (vb : Bool) (hwf : CacheWF c) (hb : allLinesBounded c)
    (hdist : lruDistinct c) :
    CacheWF (c.access addr ty vb).2 ∧
    allLinesBounded (c.access addr ty vb).2 ∧
    lruDistinct (c.access addr ty vb).2 ∧
    (c.access addr ty vb).2.global_lru_counter = c.global_lru_counter + 1 := by
  have hidx : (decomposeAddress c.geom addr).index < c.sets.length := by
    rw [hwf.1]
    exact decompose_index_lt c.geom addr
  have hslen : (c.sets.getD (decomposeAddress c.geom addr).index []).length =
      c.geom.associativity := hwf.2.1 _ hidx
  have hsne : c.sets.getD (decomposeAddress c.geom addr).index [] ≠ [] := by
    have := hwf.2.2
    intro hnil
    rw [hnil] at hslen
    simp at hslen
    omega
  cases hf : findLine (c.sets.getD (decomposeAddress c.geom addr).index [])
      (decomposeAddress c.geom addr).tag with
  | some way =>
    have hway : way < (c.sets.getD (decomposeAddress c.geom addr).index []).length :=
      firstIdxSat_lt hf
    have key := inv_update c (c.access addr ty vb).2
      (decomposeAddress c.geom addr).index way
      { (c.sets.getD (decomposeAddress c.geom addr).index []).getD way
          CacheLine.init with
        dirty := if ty = .write then true else
          ((c.sets.getD (decomposeAddress c.geom addr).index []).getD way
            CacheLine.init).dirty
        lru_counter := c.global_lru_counter + 1 }
      hidx hway
      (by simp only [CacheState.access]; rw [hf])
      (by simp only [CacheState.access]; rw [hf])
      rfl
      (by simp only [CacheState.access]; rw [hf])
      hwf hb hdist
    refine ⟨key.1, key.2.1, key.2.2, ?_⟩
    simp only [CacheState.access]
    rw [hf]
  | none =>
    have hway : cacheFindVictim (c.sets.getD (decomposeAddress c.geom addr).index []) <
        (c.sets.getD (decomposeAddress c.geom addr).index []).length :=
      cacheFindVictim_lt hsne
    have key := inv_update c (c.access addr ty vb).2
      (decomposeAddress c.geom addr).index
      (cacheFindVictim (c.sets.getD (decomposeAddress c.geom addr).index []))
      ⟨true, ty = .write, (decomposeAddress c.geom addr).tag,
        c.global_lru_counter + 1⟩
      hidx hway
      (by simp only [CacheState.access]; rw [hf])
      (by simp only [CacheState.access]; rw [hf])
      rfl
      (by simp only [CacheState.access]; rw [hf])
      hwf hb hdist
    refine ⟨key.1, key.2.1, key.2.2, ?_⟩
    simp only [CacheState.access]
    rw [hf]

theorem run_inv : ∀ (trace : List (Nat × AccessType)) (c : CacheState),
    CacheWF c → allLinesBounded c → lruDistinct c →
    CacheWF (c.run trace) ∧ allLinesBounded (c.run trace) ∧
    lruDistinct (c.run trace) ∧
    (c.run trace).global_lru_counter = c.global_lru_counter + trace.length := by
  intro trace
  induction trace with
  | nil =>
    intro c h1 h2 h3
    exact ⟨h1, h2, h3, rfl⟩
  | cons p rest ih =>
    intro c h1 h2 h3
    have hstep := access_step_inv c p.1 p.2 false h1 h2 h3
    have hrun : c.run (p :: rest) = ((c.access p.1 p.2 false).2).run rest := by
      rw [CacheState.run, CacheState.run, List.foldl_cons]
    obtain ⟨k1, k2, k3, k4⟩ := ih (c.access p.1 p.2 false).2 hstep.1 hstep.2.1
      hstep.2.2.1
    rw [hrun]
    refine ⟨k1, k2, k3, ?_⟩
    rw [k4, hstep.2.2.2, List.length_cons]
    omega

theorem init_inv (size block_size associativity : Nat) (address_bits : Int)
    (g : CacheGeom) (h : cacheInit size block_size associativity address_bits = some g) :
    CacheWF (CacheState.init g) ∧ allLinesBounded (CacheState.init g) ∧
    lruDistinct (CacheState.init g) := by
  rw [cacheInit] at h
  by_cases h0 : size = 0 ∨ block_size = 0 ∨ associativity = 0
  · rw [if_pos h0] at h
    exact absurd h (by simp)
  rw [if_neg h0] at h
  by_cases h1 : size % block_size ≠ 0
  · rw [if_pos h1] at h
    exact absurd h (by simp)
  rw [if_neg h1] at h
  by_cases h2 : ¬ isPow2 block_size = true
  · rw [if_pos h2] at h
    exact absurd h (by simp)
  rw [if_neg h2] at h
  by_cases h3 : ¬ isPow2 (size / block_size / associativity) = true
  · rw [if_pos h3] at h
    exact absurd h (by simp)
  rw [if_neg h3] at h
  simp only [Option.some.injEq] at h
  subst h
  rw [Decidable.not_not] at h3
  refine ⟨⟨?_, ?_, ?_⟩, ?_, ?_⟩
  · simp only [CacheState.init, List.length_replicate]
    exact (isPow2_two_pow_intLog2 _ h3).symm
  · intro i hi
    simp only [CacheState.init, List.length_replicate] at hi ⊢
    rw [getD_replicate_elem hi, List.length_replicate]
  · simp only [CacheState.init]
    omega
  all_goals
    have hline : ∀ i j,
        (((CacheState.init ⟨size, block_size, associativity, address_bits,
          size / block_size, size / block_size / associativity,
          intLog2 block_size, intLog2 (size / block_size / associativity),
          address_bits - (intLog2 (size / block_size / associativity) : Int) -
            (intLog2 block_size : Int)⟩).sets.getD i []).getD j
          CacheLine.init) = CacheLine.init := by
      intro i j
      simp only [CacheState.init]
      by_cases hi : i < size / block_size / associativity
      · rw [getD_replicate_elem hi]
        by_cases hj2 : j < associativity
        · rw [getD_replicate_elem hj2]
        · rw [List.getD_eq_default _ _ (by rw [List.length_replicate]; omega)]
      · have houter : (List.replicate (size / block_size / associativity)
            (List.replicate associativity CacheLine.init)).getD i [] = [] :=
          List.getD_eq_default _ _ (by rw [List.length_replicate]; omega)
        rw [houter]
        rfl
  · intro i hi j hj hvalid
    rw [hline i j] at hvalid
    exact absurd hvalid (by simp [CacheLine.init])
  · intro i1 hi1 j1 hj1 i2 hi2 j2 hj2 hne hv1 hv2 hz1 hz2
    rw [hline i1 j1] at hz1
    exact absurd rfl hz1

/-- C10: starting from construction, the global LRU counter counts exactly
one per access, every valid line's counter stays bounded by it, and no two
distinct valid lines ever share a nonzero counter value — hence the LRU
minimum used for victim selection among filled lines is unique. -/
theorem cache_lru_uniqueness_invariant (size block_size associativity : Nat)
    (address_bits : Int) (g : CacheGeom)
    (hg : cacheInit size block_size associativity address_bits = some g)
    (trace : List (Nat × AccessType)) :
    ((CacheState.init g).run trace).global_lru_counter = trace.length ∧
    allLinesBounded ((CacheState.init g).run trace) ∧
    lruDistinct ((CacheState.init g).run trace) ∧
    (∀ addr ty vb,
      ((((CacheState.init g).run trace).access addr ty vb).2).global_lru_counter =
        ((CacheState.init g).run trace).global_lru_counter + 1) := by
  obtain ⟨hwf0, hb0, hd0⟩ :=
    init_inv size block_size associativity address_bits g hg
  obtain ⟨hwf, hb, hd, hglc⟩ := run_inv trace (CacheState.init g) hwf0 hb0 hd0
  refine ⟨by simpa [CacheState.init] using hglc, hb, hd, ?_⟩
  intro addr ty vb
  exact (access_step_inv _ addr ty vb hwf hb hd).2.2.2

/-- Witness for C10: a direct-mapped 64-byte cache over a 3-access trace. -/
theorem cache_lru_uniqueness_invariant_witness :
    cacheInit 64 16 1 32 = some ⟨64, 16, 1, 32, 4, 4, 4, 2, 26⟩ ∧
    (((CacheState.init ⟨64, 16, 1, 32, 4, 4, 4, 2, 26⟩).run
        [(0x10, .read), (0x10, .write), (0x20, .read)]).global_lru_counter = 3 ∧
     allLinesBounded ((CacheState.init ⟨64, 16, 1, 32, 4, 4, 4, 2, 26⟩).run
        [(0x10, .read), (0x10, .write), (0x20, .read)]) ∧
     lruDistinct ((CacheState.init ⟨64, 16, 1, 32, 4, 4, 4, 2, 26⟩).run
        [(0x10, .read), (0x10, .write), (0x20, .read)]) ∧
     (∀ addr ty vb,
       ((((CacheState.init ⟨64, 16, 1, 32, 4, 4, 4, 2, 26⟩).run
          [(0x10, .read), (0x10, .write), (0x20, .read)]).access addr ty
            vb).2).global_lru_counter =
        (((CacheState.init ⟨64, 16, 1, 32, 4, 4, 4, 2, 26⟩).run
          [(0x10, .read), (0x10, .write), (0x20, .read)]).global_lru_counter +
          1))) := by
  refine ⟨by decide, ?_⟩
  exact cache_lru_uniqueness_invariant 64 16 1 32 ⟨64, 16, 1, 32, 4, 4, 4, 2,
    26⟩ (by decide) [(0x10, .read), (0x10, .write), (0x20, .read)]

/-! ## Helper lemmas: Sv39 walker -/

theorem shiftLeft_lor_eq_add (a k b : Nat) (hb : b < 2 ^ k) :
    (a <<< k) ||| b = a * 2 ^ k + b := by
  apply Nat.eq_of_testBit_eq
  intro i
  rw [Nat.testBit_or, Nat.testBit_shiftLeft, Nat.mul_comm a (2 ^ k),
    Nat.testBit_mul_pow_two_add a hb i]
  by_cases hik : i < k
  · have hik2 : ¬ (i ≥ k) := by omega
    simp [hik, hik2]
  · have hik2 : (i ≥ k) := by omega
    have hbf : b.testBit i = false :=
      Nat.testBit_lt_two_pow (lt_of_lt_of_le hb
        (Nat.pow_le_pow_right (by omega) (by omega)))
    simp [hik, hik2, hbf]

theorem alignPage_shift (a : Nat) : ((alignPage a) >>> 12) <<< 12 = alignPage a := by
  rw [alignPage, Nat.shiftRight_eq_div_pow, Nat.shiftLeft_eq,
    show (2 : Nat) ^ 12 = 4096 from by norm_num,
    Nat.mul_div_cancel _ (by norm_num)]

theorem alignPage_le (a : Nat) : alignPage a ≤ a := by
  rw [alignPage]
  exact Nat.div_mul_le_self a 4096

theorem readPte_memStore_skip (m : PtMem) (k : Nat) (t : PtTable) (a i : Nat)
    (h : a ≠ k) : readPte (memStore m k t) a i = readPte m a i := by
  rw [readPte, readPte, memStore_diff _ _ _ _ h]

theorem vpn2_page_offset (off : Nat) (h : off < 4096) :
    vpn2 (0x401000 + off) = 0 := by
  rw [vpn2, Nat.shiftRight_eq_div_pow,
    show (0x1FF : Nat) = 2 ^ 9 - 1 from by norm_num,
    Nat.and_pow_two_sub_one_eq_mod,
    show (2 : Nat) ^ 30 = 1073741824 from by norm_num,
    show (2 : Nat) ^ 9 = 512 from by norm_num]
  omega

theorem vpn1_page_offset (off : Nat) (h : off < 4096) :
    vpn1 (0x401000 + off) = 2 := by
  rw [vpn1, Nat.shiftRight_eq_div_pow,
    show (0x1FF : Nat) = 2 ^ 9 - 1 from by norm_num,
    Nat.and_pow_two_sub_one_eq_mod,
    show (2 : Nat) ^ 21 = 2097152 from by norm_num,
    show (2 : Nat) ^ 9 = 512 from by norm_num]
  omega

theorem vpn0_page_offset (off : Nat) (h : off < 4096) :
    vpn0 (0x401000 + off) = 1 := by
  rw [vpn0, Nat.shiftRight_eq_div_pow,
    show (0x1FF : Nat) = 2 ^ 9 - 1 from by norm_num,
    Nat.and_pow_two_sub_one_eq_mod,
    show (2 : Nat) ^ 12 = 4096 from by norm_num,
    show (2 : Nat) ^ 9 = 512 from by norm_num]
  omega

theorem vaOffset_page_offset (off : Nat) (h : off < 4096) :
    vaOffset (0x401000 + off) = off := by
  rw [vaOffset, show (0xFFF : Nat) = 2 ^ 12 - 1 from by norm_num,
    Nat.and_pow_two_sub_one_eq_mod,
    show (2 : Nat) ^ 12 = 4096 from by norm_num]
  omega

/-- C5: a valid PTE with any of R/W/X set reached at a non-final level
terminates the walk as a superpage: at level 2 the PA is
`(ppn << 30) | (va & 0x3FFFFFFF)`, at level 1 it is
`(ppn << 21) | (va & 0x1FFFFF)`, and in both cases the list of `_read_pte`
calls performed contains no lower-level table — only the tables already
visited. -/
theorem sv39_superpage_short_circuit (w : Sv39Walker) (va : Nat)
    (is_write : Bool) (p2 : SvPTE)
    (hread : readPte w.memory w.satp (vpn2 va) = some p2) :
    (p2.valid = true → p2.is_leaf = true →
      w.translate va is_write =
        (.ok ((p2.ppn <<< 30) ||| (va &&& 0x3FFFFFFF)), [(w.satp, vpn2 va)])) ∧
    (∀ p1 : SvPTE, p2.valid = true → p2.is_leaf = false →
      readPte w.memory (p2.ppn <<< 12) (vpn1 va) = some p1 →
      p1.valid = true → p1.is_leaf = true →
      w.translate va is_write =
        (.ok ((p1.ppn <<< 21) ||| (va &&& 0x1FFFFF)),
         [(w.satp, vpn2 va), (p2.ppn <<< 12, vpn1 va)])) := by
  constructor
  · intro hv hl
    simp only [Sv39Walker.translate]
    rw [hread]
    simp [hv, hl]
  · intro p1 hv hl hread1 hv1 hl1
    simp only [Sv39Walker.translate]
    rw [hread]
    simp only [hv, hl]
    rw [hread1]
    simp [hv1, hl1]

/-- Witness for C5 at a concrete 1 GiB superpage: a leaf PTE at level 2. -/
theorem sv39_superpage_short_circuit_witness :
    readPte (memStore (fun _ => none) 0x2000
        (writeBytesLE zeroTable 8 8 (pteValue ⟨true, 0x30, true, true, false,
          false, false, false, false, true⟩))) 0x2000 (vpn2 0x40000123) =
      some ⟨true, 0x30, true, true, false, false, false, false, false, true⟩ ∧
    (Sv39Walker.translate ⟨memStore (fun _ => none) 0x2000
        (writeBytesLE zeroTable 8 8 (pteValue ⟨true, 0x30, true, true, false,
          false, false, false, false, true⟩)), 0x2000⟩ 0x40000123 false =
      (.ok ((0x30 <<< 30) ||| (0x40000123 &&& 0x3FFFFFFF)),
       [(0x2000, vpn2 0x40000123)])) := by
  refine ⟨by decide, ?_⟩
  exact (sv39_superpage_short_circuit ⟨memStore (fun _ => none) 0x2000
    (writeBytesLE zeroTable 8 8 (pteValue ⟨true, 0x30, true, true, false,
      false, false, false, false, true⟩)), 0x2000⟩ 0x40000123 false
    ⟨true, 0x30, true, true, false, false, false, false, false, true⟩
    (by decide)).1 rfl rfl

/-- C4 counterexample: the claim quantifies over every outcome of the
internal table allocation, but the allocator draws random page-aligned
addresses that may collide; if both draws during `map_page` land on the root
table's address, the root's level-2 entry is wiped and the subsequent
`translate(0x401234)` faults instead of returning 0x12345234. -/
theorem sv39_alloc_collision_cex :
    (((Sv39Walker.new 0x10000).mapPage 0x10000 0x10000 0x401000 0x12345000
      true true false true).map fun w1 => (w1.translate 0x401234 false).1) =
      some .fault ∧
    some WalkResult.fault ≠ some (WalkResult.ok 0x12345234) := by
  refine ⟨by decide, by decide⟩

set_option maxHeartbeats 2000000 in
/-- C4 amended: on a fresh walker, `translate 0x500000` faults regardless of
where the root table was allocated; and provided the allocator's draws land
on pairwise-distinct pages (and within `randint`'s 0xFFFFFF range),
`map_page(0x401000, 0x12345000)` followed by `translate` of any address in
that page yields `0x12345000 + offset` — page-aligned prefix the mapped PPN,
low 12 bits the VA's offset — in particular `0x12345234` at `0x401234`. -/
theorem sv39_map_translate_roundtrip (a0 a1 a2 : Nat)
    (hb1 : a1 ≤ 0xFFFFFF) (hb2 : a2 ≤ 0xFFFFFF)
    (h10 : alignPage a1 ≠ alignPage a0)
    (h20 : alignPage a2 ≠ alignPage a0)
    (h21 : alignPage a2 ≠ alignPage a1) :
    ((Sv39Walker.new a0).translate 0x500000 false).1 = .fault ∧
    (∀ off, off < 4096 →
      (((Sv39Walker.new a0).mapPage a1 a2 0x401000 0x12345000 true true false
        true).map fun w1 => (w1.translate (0x401000 + off) false).1) =
        some (.ok (0x12345000 + off)) ∧
      (0x12345000 + off) >>> 12 = 0x12345 ∧
      (0x12345000 + off) % 4096 = off) := by
  have hnew : Sv39Walker.new a0 =
      ⟨memStore (fun _ => none) (alignPage a0) zeroTable, alignPage a0⟩ := rfl
  constructor
  · rw [hnew]
    simp only [Sv39Walker.translate]
    rw [show vpn2 0x500000 = 0 from by decide,
      readPte_of_mem _ _ _ zeroTable (memStore_same _ _ _), decode_zeroTable]
    simp [SvPTE.init]
  · intro off hoff
    have hv2 : vpn2 0x401000 = 0 := by decide
    have hv1 : vpn1 0x401000 = 2 := by decide
    have hv0 : vpn0 0x401000 = 1 := by decide
    rw [hnew]
    simp only [Sv39Walker.mapPage, allocPageTable, hv2, hv1, hv0]
    rw [readPte_of_mem _ _ _ zeroTable (memStore_same _ _ _), decode_zeroTable]
    simp only [SvPTE.init, Bool.false_eq_true, if_false]
    rw [writePte_of_mem _ _ _ _ zeroTable
      (by rw [memStore_diff _ _ _ _ (Ne.symm h10)]; exact memStore_same _ _ _),
      alignPage_shift]
    dsimp only
    rw [readPte_memStore_skip _ _ _ _ _ h10,
      readPte_of_mem _ _ _ zeroTable (memStore_same _ _ _), decode_zeroTable]
    simp only [SvPTE.init, Bool.false_eq_true, if_false]
    rw [writePte_of_mem _ _ _ _ zeroTable
      (by rw [memStore_diff _ _ _ _ (Ne.symm h21), memStore_diff _ _ _ _ h10]
          exact memStore_same _ _ _),
      alignPage_shift]
    dsimp only
    rw [writePte_of_mem _ _ _ _ zeroTable
      (by rw [memStore_diff _ _ _ _ h21]; exact memStore_same _ _ _)]
    dsimp only [Option.map]
    refine ⟨?_, ?_, ?_⟩
    · have hp1 : alignPage a1 >>> 12 < 2 ^ 54 := by
        have := alignPage_le a1
        rw [Nat.shiftRight_eq_div_pow, show (2 : Nat) ^ 12 = 4096 from by norm_num,
          show (2 : Nat) ^ 54 = 18014398509481984 from by norm_num]
        omega
      have hp2 : alignPage a2 >>> 12 < 2 ^ 54 := by
        have := alignPage_le a2
        rw [Nat.shiftRight_eq_div_pow, show (2 : Nat) ^ 12 = 4096 from by norm_num,
          show (2 : Nat) ^ 54 = 18014398509481984 from by norm_num]
        omega
      rw [Sv39Walker.translate]
      dsimp only
      rw [vpn2_page_offset off hoff, vpn1_page_offset off hoff,
        vpn0_page_offset off hoff, vaOffset_page_offset off hoff]
      rw [readPte_memStore_skip _ _ _ _ _ (Ne.symm h20),
        readPte_memStore_skip _ _ _ _ _ (Ne.symm h10),
        readPte_memStore_skip _ _ _ _ _ (Ne.symm h20),
        readPte_of_mem _ _ _ _ (memStore_same _ _ _),
        decode_read_write_same zeroTable 0 _ hp1]
      simp only [decodedPte, Bool.or_false, Bool.or_self, not_true,
        Bool.false_eq_true, if_false]
      rw [alignPage_shift]
      rw [readPte_memStore_skip _ _ _ _ _ (Ne.symm h21),
        readPte_of_mem _ _ _ _ (memStore_same _ _ _),
        decode_read_write_same zeroTable 2 _ hp2]
      simp only [decodedPte, Bool.or_false, Bool.or_self, not_true,
        Bool.false_eq_true, if_false]
      rw [alignPage_shift]
      have hp0 : (305418240 : Nat) >>> 12 < 2 ^ 54 := by decide
      rw [readPte_of_mem _ _ _ _ (memStore_same _ _ _),
        decode_read_write_same zeroTable 1 _ hp0]
      simp only [decodedPte, Bool.or_false, Bool.or_self, Bool.or_true,
        not_true, Bool.false_eq_true, if_false, Bool.false_and,
        Bool.and_false]
      have hfin : ((305418240 : Nat) >>> 12) <<< 12 ||| off = 305418240 + off := by
        rw [show (305418240 : Nat) >>> 12 = 74565 from by decide,
          shiftLeft_lor_eq_add 74565 12 off
            (show off < 2 ^ 12 by
              rw [show (2 : Nat) ^ 12 = 4096 from by norm_num]
              exact hoff)]
        norm_num
      rw [hfin]
    · rw [Nat.shiftRight_eq_div_pow, show (2 : Nat) ^ 12 = 4096 from by norm_num]
      omega
    · omega

/-- Witness for C4's amended theorem with allocator draws 0x10000, 0x20000,
0x30000, evaluated at offset 0x234. -/
theorem sv39_map_translate_roundtrip_witness :
    ((0x20000 : Nat) ≤ 0xFFFFFF ∧ (0x30000 : Nat) ≤ 0xFFFFFF ∧
     alignPage 0x20000 ≠ alignPage 0x10000 ∧
     alignPage 0x30000 ≠ alignPage 0x10000 ∧
     alignPage 0x30000 ≠ alignPage 0x20000 ∧ (0x234 : Nat) < 4096) ∧
    (((Sv39Walker.new 0x10000).translate 0x500000 false).1 = .fault ∧
     ((((Sv39Walker.new 0x10000).mapPage 0x20000 0x30000 0x401000 0x12345000
        true true false true).map
        fun w1 => (w1.translate (0x401000 + 0x234) false).1) =
        some (.ok (0x12345000 + 0x234)) ∧
      (0x12345000 + 0x234 : Nat) >>> 12 = 0x12345 ∧
      (0x12345000 + 0x234 : Nat) % 4096 = 0x234)) := by
  refine ⟨⟨by decide, by decide, by decide, by decide, by decide, by decide⟩, ?_⟩
  have := sv39_map_translate_roundtrip 0x10000 0x20000 0x30000 (by decide)
    (by decide) (by decide) (by decide) (by decide)
  exact ⟨this.1, this.2 0x234 (by decide)⟩
